import Mathlib

/-!
Verification of the finite-field and elliptic-curve core
(`src/exercises/ch1.rs`, `src/exercises/ch2.rs`).

The Rust code is embedded shallowly.  Machine integers (`u32`) are
modelled as `Nat` together with explicit overflow checks: in a debug
build every overflowing `u32` operation aborts the program, and the
code under verification relies on `-`, `*`, `%`, `u32::pow`,
`Option::unwrap` and `Result::unwrap`, all of which can abort.  A
computation therefore ends in one of three ways, captured by `RRes`:
it panics, it returns an `Err` value to the caller, or it succeeds.
-/

/-- Error values returned by the core (the Rust code returns
`Result<_, String>`; each constructor stands for one of the distinct
message strings, named as in the specification's error taxonomy). -/
inductive Err : Type where
  | OutOfRange : Err
  | FieldMismatch : Err
  | DivisionByZero : Err
  | InvalidInfinity : Err
  | NotOnCurve : Err
  | CurveMismatch : Err
deriving DecidableEq

/-- Outcome of running a piece of the Rust code in a debug build:
a panic (overflow, underflow, unwrap of an error), a returned error
value, or a returned success value. -/
inductive RRes (α : Type) : Type where
  | panic : RRes α
  | err : Err → RRes α
  | ok : α → RRes α
deriving DecidableEq

/-- Sequencing of fallible computations: panics and returned errors
propagate. -/
def RRes.bind {α β : Type} : RRes α → (α → RRes β) → RRes β
  | .panic, _ => .panic
  | .err e, _ => .err e
  | .ok a, f => f a

/-- Rust `Result::unwrap`: a returned error becomes a panic. -/
def RRes.unwrap {α : Type} : RRes α → RRes α
  | .ok a => .ok a
  | _ => .panic

/-- Rust `Option::unwrap`: `None` becomes a panic. -/
def optUnwrap {α : Type} : Option α → RRes α
  | none => .panic
  | some a => .ok a

/-- Checked `u32` addition: panics on overflow. -/
def checkedAdd (a b : Nat) : RRes Nat :=
  if a + b < 4294967296 then .ok (a + b) else .panic

/-- Checked `u32` subtraction: panics on underflow. -/
def checkedSub (a b : Nat) : RRes Nat :=
  if b ≤ a then .ok (a - b) else .panic

/-- Checked `u32` multiplication: panics on overflow. -/
def checkedMul (a b : Nat) : RRes Nat :=
  if a * b < 4294967296 then .ok (a * b) else .panic

/-- Checked `u32` remainder: panics on a zero divisor. -/
def checkedRem (a b : Nat) : RRes Nat :=
  if b = 0 then .panic else .ok (a % b)

/-- Checked `u32::pow`: computed by repeated multiplication, it panics
exactly when the mathematical power does not fit in 32 bits (every
intermediate product is bounded by the final result). -/
def checkedPow (a e : Nat) : RRes Nat :=
  if a ^ e < 4294967296 then .ok (a ^ e) else .panic

/-- Field element from `ch1.rs`: a residue `num` together with the
modulus `prime`, both `u32`. -/
structure FieldElement : Type where
  num : Nat
  prime : Nat
deriving DecidableEq

/-- Validating constructor `FieldElement::new` (ch1.rs lines 13-22):
rejects `num ≥ prime`. -/
def FieldElement.new (num prime : Nat) : RRes FieldElement :=
  if num ≥ prime then .err .OutOfRange else .ok ⟨num, prime⟩

/-- Body of the discarded loop inside `FieldElement::pow`
(ch1.rs line 28): `num = (num * self.num) % self.prime`. -/
def FieldElement.powLoop (a : FieldElement) : Nat → Nat → RRes Nat
  | 0, num => .ok num
  | k + 1, num =>
      (checkedMul num a.num).bind fun m =>
      (checkedRem m a.prime).bind fun r =>
      FieldElement.powLoop a k r

/-- Exponentiation `FieldElement::pow` (ch1.rs lines 24-35).  The loop
bound `exponent - 1` underflows for exponent 0; the loop itself
recomputes `num` and then discards it (but its overflow panics are
real); the returned value is `self.num.pow(exponent) % self.prime`. -/
def FieldElement.pow (a : FieldElement) (exponent : Nat) : RRes FieldElement :=
  (checkedSub exponent 1).bind fun bound =>
  (FieldElement.powLoop a bound a.num).bind fun _ =>
  (checkedPow a.num exponent).bind fun n =>
  (checkedRem n a.prime).bind fun r =>
  .ok ⟨r, a.prime⟩

/-- Addition `impl ops::Add for FieldElement` (ch1.rs lines 44-57). -/
def FieldElement.add (a b : FieldElement) : RRes FieldElement :=
  if a.prime ≠ b.prime then .err .FieldMismatch
  else
    (checkedAdd a.num b.num).bind fun s =>
    (checkedRem s a.prime).bind fun r =>
    .ok ⟨r, a.prime⟩

/-- Subtraction `impl ops::Sub for FieldElement` (ch1.rs lines 59-79):
three branches on the comparison of the two residues. -/
def FieldElement.sub (a b : FieldElement) : RRes FieldElement :=
  if a.prime ≠ b.prime then .err .FieldMismatch
  else if a.num > b.num then
    (checkedSub a.num b.num).bind fun d =>
    (checkedRem d a.prime).bind fun r =>
    .ok ⟨r, a.prime⟩
  else if a.num < b.num then
    (checkedSub b.num a.num).bind fun d =>
    (checkedSub a.prime d).bind fun r =>
    .ok ⟨r, a.prime⟩
  else .ok ⟨0, a.prime⟩

/-- Multiplication `impl ops::Mul for FieldElement` (ch1.rs lines
81-94): a single-width `u32` product reduced modulo the prime. -/
def FieldElement.mul (a b : FieldElement) : RRes FieldElement :=
  if a.prime ≠ b.prime then .err .FieldMismatch
  else
    (checkedMul a.num b.num).bind fun m =>
    (checkedRem m a.prime).bind fun r =>
    .ok ⟨r, a.prime⟩

/-- Division `impl ops::Div for FieldElement` (ch1.rs lines 96-112):
multiplication by the Fermat inverse `rhs.pow(self.prime - 2)`. -/
def FieldElement.div (a b : FieldElement) : RRes FieldElement :=
  if a.prime ≠ b.prime then .err .FieldMismatch
  else if b.num = 0 then .err .DivisionByZero
  else
    (checkedSub a.prime 2).bind fun e =>
    (FieldElement.pow b e).bind fun inv =>
    FieldElement.mul a inv

/-- Modelled from the spec: `FieldElement::scalar_mul` is invoked by
`Point::add` (ch2.rs line 174) but its definition is absent from the
sources under `src/`.  The specification's doubling formula
`s = (3x₁² + a) / (2y₁)` (spec section 4.2, case 3) determines it as
the field-correct integer multiple of an element. -/
def FieldElement.scalar_mul (a : FieldElement) (k : Nat) : FieldElement :=
  ⟨a.num * k % a.prime, a.prime⟩

/-- Curve point from `ch2.rs`: curve parameters `a`, `b` and optional
coordinates; both coordinates absent represents the point at
infinity. -/
structure Point : Type where
  a : FieldElement
  b : FieldElement
  x : Option FieldElement
  y : Option FieldElement
deriving DecidableEq

/-- Validating constructor `Point::new` (ch2.rs lines 29-79). -/
def Point.new (a b : FieldElement) (x y : Option FieldElement) : RRes Point :=
  match x with
  | some xv =>
    match y with
    | some yv =>
      if a.prime ≠ b.prime ∨ b.prime ≠ xv.prime ∨ xv.prime ≠ yv.prime then
        .err .FieldMismatch
      else
        (FieldElement.pow yv 2).bind fun lhs =>
        (FieldElement.pow xv 3).bind fun rhs0 =>
        (RRes.unwrap (FieldElement.mul a xv)).bind fun rhs1 =>
        (RRes.unwrap (FieldElement.add rhs0 rhs1)).bind fun rhs01 =>
        (RRes.unwrap (FieldElement.add rhs01 b)).bind fun rhs =>
        if lhs ≠ rhs then .err .NotOnCurve
        else .ok ⟨a, b, some xv, some yv⟩
    | none => .err .InvalidInfinity
  | none =>
    match y with
    | some _ => .err .InvalidInfinity
    | none => .ok ⟨a, b, none, none⟩

/-- Shared tail of the two slope cases of `Point::add` (ch2.rs lines
198-201): `x₃ = s² - x₁ - x₂`, `y₃ = s(x₁ - x₃) - y₁`, then a
re-validating `Point::new(..).unwrap()`. -/
def Point.addTail (p1 : Point) (x1 y1 x2 slope : FieldElement) : RRes Point :=
  (FieldElement.pow slope 2).bind fun s2 =>
  (RRes.unwrap (FieldElement.sub s2 x1)).bind fun t1 =>
  (RRes.unwrap (FieldElement.sub t1 x2)).bind fun x3 =>
  (RRes.unwrap (FieldElement.sub x1 x3)).bind fun d =>
  (RRes.unwrap (FieldElement.mul slope d)).bind fun t2 =>
  (RRes.unwrap (FieldElement.sub t2 y1)).bind fun y3 =>
  RRes.unwrap (Point.new p1.a p1.b (some x3) (some y3))

/-- Slope and tail of the distinct-points case of `Point::add`
(ch2.rs line 195): `s = (y₂ - y₁)/(x₂ - x₁)`. -/
def Point.addDistinct (p1 : Point) (x1 y1 x2 y2 : FieldElement) : RRes Point :=
  (RRes.unwrap (FieldElement.sub y2 y1)).bind fun dy =>
  (RRes.unwrap (FieldElement.sub x2 x1)).bind fun dx =>
  (RRes.unwrap (FieldElement.div dy dx)).bind fun slope =>
  Point.addTail p1 x1 y1 x2 slope

/-- Group-law addition `impl ops::Add for Point` (ch2.rs lines
98-203), with its exact branch structure: curve check, the two
infinity cases (which flip the other point's `y`), the equal-points
case with its `y = 0` variant, and the distinct-points case with its
vertical-line variant (whose guard `y₁ + y₂ == prime` is only
evaluated when the `x` coordinates agree, by `&&` short-circuiting). -/
def Point.add (p1 p2 : Point) : RRes Point :=
  if p1.a ≠ p2.a ∨ p1.b ≠ p2.b then .err .CurveMismatch
  else if p1.x = none ∧ p1.y = none then
    if p2.x = none ∧ p2.y = none then RRes.unwrap (Point.new p1.a p1.b none none)
    else
      (optUnwrap p2.y).bind fun yv =>
      (checkedSub p1.a.prime yv.num).bind fun d =>
      (RRes.unwrap (FieldElement.new d p1.a.prime)).bind fun fe =>
      RRes.unwrap (Point.new p1.a p1.b p2.x (some fe))
  else if p2.x = none ∧ p2.y = none then
    if p1.x = none ∧ p1.y = none then RRes.unwrap (Point.new p1.a p1.b none none)
    else
      (optUnwrap p1.y).bind fun yv =>
      (checkedSub p1.a.prime yv.num).bind fun d =>
      (RRes.unwrap (FieldElement.new d p1.a.prime)).bind fun fe =>
      RRes.unwrap (Point.new p1.a p1.b p1.x (some fe))
  else
    (optUnwrap p1.x).bind fun x1 =>
    (optUnwrap p1.y).bind fun y1 =>
    (optUnwrap p2.x).bind fun x2 =>
    (optUnwrap p2.y).bind fun y2 =>
    if p1.x = p2.x ∧ p1.y = p2.y then
      if y1.num = 0 then RRes.unwrap (Point.new p1.a p1.b none none)
      else
        (FieldElement.pow x1 2).bind fun sq =>
        (RRes.unwrap (FieldElement.add (FieldElement.scalar_mul sq 3) p1.a)).bind
          fun numer =>
        (RRes.unwrap (FieldElement.div numer (FieldElement.scalar_mul y1 2))).bind
          fun slope =>
        Point.addTail p1 x1 y1 x2 slope
    else if p1.x = p2.x then
      (checkedAdd y1.num y2.num).bind fun s =>
      if s = p1.a.prime then RRes.unwrap (Point.new p1.a p1.b none none)
      else Point.addDistinct p1 x1 y1 x2 y2
    else Point.addDistinct p1 x1 y1 x2 y2

/-- Loop body of `Point::scalar_mul` (ch2.rs lines 89-91):
`product = (product + self).unwrap()`, iterated. -/
def Point.scalarLoop (p : Point) : Nat → Point → RRes Point
  | 0, product => .ok product
  | k + 1, product =>
      (RRes.unwrap (Point.add product p)).bind fun q =>
      Point.scalarLoop p k q

/-- Scalar multiplication `Point::scalar_mul` (ch2.rs lines 81-95). -/
def Point.scalar_mul (p : Point) (k : Nat) : RRes Point :=
  if k = 0 then RRes.unwrap (Point.new p.a p.b none none)
  else if k > 1 then Point.scalarLoop p (k - 1) p
  else .ok p

/-- Specification-side definition for the scalar-multiplication
refinement claim: the fold of the program's `add` over `k` copies of
`p` (adding `p` to itself `k` times, unwrapping each fallible sum as
the program itself does), with `foldAdd p 0` the point at infinity of
the curve of `p`. -/
def Point.foldAdd (p : Point) : Nat → RRes Point
  | 0 => RRes.unwrap (Point.new p.a p.b none none)
  | 1 => .ok p
  | k + 2 =>
      (Point.foldAdd p (k + 1)).bind fun q =>
      RRes.unwrap (Point.add q p)

/-- Short Weierstrass curve `y² = x³ + A·x + B` (the family implemented
by `ch2.rs`), packaged as a Mathlib Weierstrass curve. -/
def stdCurve {F : Type} [CommRing F] (A B : F) : WeierstrassCurve.Affine F :=
  ⟨0, 0, 0, A, B⟩

/-- Invariant stated by the specification for any produced point: if
the coordinates are concrete then all four field elements share one
prime and the curve equation holds in that field. -/
def onCurveInv (q : Point) : Prop :=
  ∀ xv yv : FieldElement, q.x = some xv → q.y = some yv →
    q.b.prime = q.a.prime ∧ xv.prime = q.a.prime ∧ yv.prime = q.a.prime ∧
      yv.num ^ 2 % q.a.prime =
        (xv.num ^ 3 + q.a.num * xv.num + q.b.num) % q.a.prime

/-! ### Residue combinators: compact names for the `Nat`-level values
produced by the field operations, used to state the slope-case
completion lemmas -/

/-- Value computed by `FieldElement::sub` on same-field operands. -/
def subModN (p m n : Nat) : Nat := (m + p - n) % p

/-- Value computed by the Fermat-inverse power inside division. -/
def invModN (p n : Nat) : Nat := (n ^ (p - 2)) % p

/-- Value computed by `FieldElement::div` on same-field operands. -/
def divModN (p m n : Nat) : Nat := (m * invModN p n) % p

/-- Value computed by `FieldElement::mul` on same-field operands. -/
def mulModN (p m n : Nat) : Nat := (m * n) % p

/-- Value computed by `FieldElement::add` on same-field operands. -/
def addModN (p m n : Nat) : Nat := (m + n) % p

/-- Value computed by `FieldElement::pow` at exponent 2. -/
def sqModN (p m : Nat) : Nat := (m ^ 2) % p

@[simp] theorem RRes.bind_ok {α β : Type} (a : α) (f : α → RRes β) :
    RRes.bind (.ok a) f = f a := rfl

@[simp] theorem RRes.bind_err {α β : Type} (e : Err) (f : α → RRes β) :
    RRes.bind (.err e) f = .err e := rfl

@[simp] theorem RRes.bind_panic {α β : Type} (f : α → RRes β) :
    RRes.bind (.panic : RRes α) f = .panic := rfl

@[simp] theorem RRes.unwrap_ok {α : Type} (a : α) :
    RRes.unwrap (.ok a) = (.ok a : RRes α) := rfl

@[simp] theorem RRes.unwrap_err {α : Type} (e : Err) :
    RRes.unwrap (.err e : RRes α) = .panic := rfl

@[simp] theorem RRes.unwrap_panic {α : Type} :
    RRes.unwrap (.panic : RRes α) = .panic := rfl

@[simp] theorem optUnwrap_some {α : Type} (a : α) :
    optUnwrap (some a) = (.ok a : RRes α) := rfl

@[simp] theorem optUnwrap_none {α : Type} :
    optUnwrap (none : Option α) = (.panic : RRes α) := rfl

/-! ### Evaluation lemmas for the checked `u32` primitives -/

theorem checkedAdd_ok {a b : Nat} (h : a + b < 4294967296) :
    checkedAdd a b = .ok (a + b) := by
  simp [checkedAdd, h]

theorem checkedSub_ok {a b : Nat} (h : b ≤ a) :
    checkedSub a b = .ok (a - b) := by
  simp [checkedSub, h]

theorem checkedSub_underflow {a b : Nat} (h : a < b) :
    checkedSub a b = .panic := by
  simp [checkedSub]
  omega

theorem checkedMul_ok {a b : Nat} (h : a * b < 4294967296) :
    checkedMul a b = .ok (a * b) := by
  simp [checkedMul, h]

theorem checkedRem_ok {a b : Nat} (h : b ≠ 0) :
    checkedRem a b = .ok (a % b) := by
  simp [checkedRem, h]

theorem checkedPow_ok {a e : Nat} (h : a ^ e < 4294967296) :
    checkedPow a e = .ok (a ^ e) := by
  simp [checkedPow, h]

/-! ### Evaluation lemmas for the field operations, under the
representation invariant `num < prime` and no-overflow bounds -/

theorem FieldElement.add_mismatch {a b : FieldElement} (h : a.prime ≠ b.prime) :
    FieldElement.add a b = .err .FieldMismatch := by
  simp [FieldElement.add, h]

theorem FieldElement.sub_mismatch {a b : FieldElement} (h : a.prime ≠ b.prime) :
    FieldElement.sub a b = .err .FieldMismatch := by
  simp [FieldElement.sub, h]

theorem FieldElement.mul_mismatch {a b : FieldElement} (h : a.prime ≠ b.prime) :
    FieldElement.mul a b = .err .FieldMismatch := by
  simp [FieldElement.mul, h]

theorem FieldElement.div_mismatch {a b : FieldElement} (h : a.prime ≠ b.prime) :
    FieldElement.div a b = .err .FieldMismatch := by
  simp [FieldElement.div, h]

theorem FieldElement.add_ok {m n p : Nat} (hp : p ≠ 0) (h : m + n < 4294967296) :
    FieldElement.add ⟨m, p⟩ ⟨n, p⟩ = .ok ⟨(m + n) % p, p⟩ := by
  simp [FieldElement.add, checkedAdd_ok h, checkedRem_ok hp, RRes.bind]

theorem FieldElement.sub_ok {m n p : Nat} (hm : m < p) (hn : n < p) :
    FieldElement.sub ⟨m, p⟩ ⟨n, p⟩ = .ok ⟨(m + p - n) % p, p⟩ := by
  have hp : p ≠ 0 := by omega
  rcases Nat.lt_trichotomy m n with hlt | heq | hgt
  · have hmod : (m + p - n) % p = p - (n - m) := by
      rw [Nat.mod_eq_of_lt (by omega)]
      omega
    rw [hmod]
    have h2 : n - m ≤ p := by omega
    simp [FieldElement.sub, hlt, (by omega : ¬ n < m),
      checkedSub_ok (by omega : m ≤ n), checkedSub_ok h2, RRes.bind]
    exact fun hcon => absurd hcon (by omega)
  · subst heq
    have hmod : (m + p - m) % p = 0 := by
      rw [(by omega : m + p - m = p), Nat.mod_self]
    rw [hmod]
    simp [FieldElement.sub, RRes.bind]
  · have hmod : (m + p - n) % p = (m - n) % p := by
      rw [(by omega : m + p - n = (m - n) + p), Nat.add_mod_right]
    rw [hmod]
    simp [FieldElement.sub, hgt, checkedSub_ok (by omega : n ≤ m),
      checkedRem_ok hp, RRes.bind]

theorem FieldElement.mul_ok {m n p : Nat} (hp : p ≠ 0) (h : m * n < 4294967296) :
    FieldElement.mul ⟨m, p⟩ ⟨n, p⟩ = .ok ⟨m * n % p, p⟩ := by
  simp [FieldElement.mul, checkedMul_ok h, checkedRem_ok hp, RRes.bind]

theorem FieldElement.powLoop_ok {m p : Nat} (hm : m < p) (hpp : p * p < 4294967296) :
    ∀ k num, num < p → ∃ r, FieldElement.powLoop ⟨m, p⟩ k num = .ok r := by
  intro k
  induction k with
  | zero => exact fun num _ => ⟨num, rfl⟩
  | succ k ih =>
    intro num hnum
    have hp : p ≠ 0 := by omega
    have hmul : num * m < 4294967296 :=
      lt_trans (mul_lt_mul'' hnum hm (Nat.zero_le _) (Nat.zero_le _)) hpp
    obtain ⟨r, hr⟩ := ih (num * m % p) (Nat.mod_lt _ (by omega))
    exact ⟨r, by simp [FieldElement.powLoop, checkedMul_ok hmul,
      checkedRem_ok hp, RRes.bind, hr]⟩

theorem FieldElement.pow_ok {m p e : Nat} (he : 1 ≤ e) (hm : m < p)
    (hpow : m ^ e < 4294967296) (hpp : p * p < 4294967296) :
    FieldElement.pow ⟨m, p⟩ e = .ok ⟨m ^ e % p, p⟩ := by
  have hp : p ≠ 0 := by omega
  obtain ⟨r, hr⟩ := FieldElement.powLoop_ok hm hpp (e - 1) m hm
  simp [FieldElement.pow, checkedSub_ok he, hr, checkedPow_ok hpow,
    checkedRem_ok hp, RRes.bind]

theorem FieldElement.pow_zero_panic (a : FieldElement) :
    FieldElement.pow a 0 = .panic := by
  simp [FieldElement.pow, checkedSub_underflow (by omega : (0:Nat) < 1), RRes.bind]

theorem FieldElement.div_ok {m n p : Nat} (hm : m < p) (hn0 : n ≠ 0) (hn : n < p)
    (hp3 : 3 ≤ p) (hpow : n ^ (p - 2) < 4294967296) (hpp : p * p < 4294967296) :
    FieldElement.div ⟨m, p⟩ ⟨n, p⟩ = .ok ⟨m * (n ^ (p - 2) % p) % p, p⟩ := by
  have h2 : (2 : Nat) ≤ p := by omega
  have he : 1 ≤ p - 2 := by omega
  have hp0 : p ≠ 0 := by omega
  have hmul : m * (n ^ (p - 2) % p) < 4294967296 :=
    lt_trans (mul_lt_mul'' hm (Nat.mod_lt _ (by omega)) (Nat.zero_le _)
      (Nat.zero_le _)) hpp
  simp [FieldElement.div, hn0, checkedSub_ok h2,
    FieldElement.pow_ok he hn hpow hpp, FieldElement.mul_ok hp0 hmul,
    RRes.bind]

/-! ### Transport between residue arithmetic on `Nat` and `ZMod p` -/

theorem cast_sub_mod {p m n : Nat} (hn : n ≤ p) :
    (((m + p - n) % p : Nat) : ZMod p) = (m : ZMod p) - (n : ZMod p) := by
  rw [ZMod.natCast_mod, (by omega : m + p - n = m + (p - n)), Nat.cast_add,
    Nat.cast_sub hn, ZMod.natCast_self]
  ring

theorem cast_mul_mod {p m n : Nat} :
    ((m * n % p : Nat) : ZMod p) = (m : ZMod p) * (n : ZMod p) := by
  rw [ZMod.natCast_mod]
  push_cast
  ring

theorem cast_pow_mod {p m e : Nat} :
    ((m ^ e % p : Nat) : ZMod p) = (m : ZMod p) ^ e := by
  rw [ZMod.natCast_mod]
  push_cast
  ring

theorem cast_add_mod {p m n : Nat} :
    (((m + n) % p : Nat) : ZMod p) = (m : ZMod p) + (n : ZMod p) := by
  rw [ZMod.natCast_mod]
  push_cast
  ring

theorem cast_ne_zero_of_lt {p n : Nat} (h0 : n ≠ 0) (hn : n < p) :
    (n : ZMod p) ≠ 0 := by
  intro hcon
  have hval := ZMod.val_cast_of_lt hn
  haveI : NeZero p := ⟨by omega⟩
  rw [hcon, ZMod.val_zero] at hval
  exact h0 hval.symm

theorem cast_fermat {p n : Nat} (hp : p.Prime) (hn : (n : ZMod p) ≠ 0) :
    ((n ^ (p - 2) % p : Nat) : ZMod p) * (n : ZMod p) = 1 := by
  haveI : Fact p.Prime := ⟨hp⟩
  have h21 : p - 2 + 1 = p - 1 := by
    have := hp.two_le
    omega
  rw [cast_pow_mod, ← pow_succ, h21]
  exact ZMod.pow_card_sub_one_eq_one hn

theorem flip_sq_mod {p y : Nat} (hy : y ≤ p) :
    (p - y) ^ 2 % p = y ^ 2 % p := by
  apply (ZMod.natCast_eq_natCast_iff' _ _ _).mp
  push_cast [Nat.cast_sub hy, ZMod.natCast_self]
  ring

theorem stdCurve_equation {F : Type} [CommRing F] (A B x y : F) :
    (stdCurve A B).Equation x y ↔ y ^ 2 = x ^ 3 + A * x + B := by
  rw [WeierstrassCurve.Affine.equation_iff]
  simp only [stdCurve]
  constructor <;> intro h <;> linear_combination h

theorem stdCurve_negY {F : Type} [CommRing F] (A B x y : F) :
    (stdCurve A B).negY x y = -y := by
  simp [WeierstrassCurve.Affine.negY, stdCurve]

/-- Closure of the chord-and-tangent construction: with the slope fixed
by either the tangent relation or the secant relation, the point
`(x₃, y₃) = (s² - x₁ - x₂, s(x₁ - x₃) - y₁)` of ch2.rs lines 198-199
satisfies the curve equation whenever the two input points do. -/
theorem slope_closure {F : Type} [Field F] {A B x1 y1 x2 y2 s : F}
    (h1 : y1 ^ 2 = x1 ^ 3 + A * x1 + B) (h2 : y2 ^ 2 = x2 ^ 3 + A * x2 + B)
    (hs : (x1 = x2 ∧ y1 = y2 ∧ 2 * y1 ≠ 0 ∧ s * (2 * y1) = 3 * x1 ^ 2 + A) ∨
          (x1 ≠ x2 ∧ s * (x2 - x1) = y2 - y1)) :
    (s * (x1 - (s ^ 2 - x1 - x2)) - y1) ^ 2 =
      (s ^ 2 - x1 - x2) ^ 3 + A * (s ^ 2 - x1 - x2) + B := by
  have hE1 : (stdCurve A B).Equation x1 y1 := (stdCurve_equation A B x1 y1).mpr h1
  have hE2 : (stdCurve A B).Equation x2 y2 := (stdCurve_equation A B x2 y2).mpr h2
  have hxy : x1 = x2 → y1 ≠ (stdCurve A B).negY x2 y2 := by
    intro hx
    rw [stdCurve_negY]
    rcases hs with ⟨_, hyy, hy2, _⟩ | ⟨hne, _⟩
    · intro hcon
      apply hy2
      linear_combination hcon + hyy
    · exact absurd hx hne
  have hslope : (stdCurve A B).slope x1 x2 y1 y2 = s := by
    rcases hs with ⟨hx, hyy, hy2, hrel⟩ | ⟨hne, hrel⟩
    · rw [WeierstrassCurve.Affine.slope_of_Y_ne hx (hxy hx), stdCurve_negY]
      simp only [stdCurve]
      rw [div_eq_iff (by intro hc; exact hy2 (by linear_combination hc))]
      linear_combination -hrel
    · rw [WeierstrassCurve.Affine.slope_of_X_ne hne,
        div_eq_iff (sub_ne_zero.mpr hne)]
      linear_combination hrel
  have hadd := WeierstrassCurve.Affine.equation_add hE1 hE2 hxy
  rw [hslope, stdCurve_equation] at hadd
  simp only [WeierstrassCurve.Affine.addX, WeierstrassCurve.Affine.addY,
    WeierstrassCurve.Affine.negAddY, WeierstrassCurve.Affine.negY, stdCurve,
    zero_mul, mul_zero, sub_zero, add_zero, zero_add] at hadd
  linear_combination hadd

/-! ### Evaluation of `Point::new` on valid field elements -/

theorem Point.new_inf (a b : FieldElement) :
    Point.new a b none none = .ok ⟨a, b, none, none⟩ := rfl

theorem Point.new_left_only (a b x : FieldElement) :
    Point.new a b (some x) none = .err .InvalidInfinity := rfl

theorem Point.new_right_only (a b y : FieldElement) :
    Point.new a b none (some y) = .err .InvalidInfinity := rfl

theorem Point.new_mismatch {a b x y : FieldElement}
    (h : a.prime ≠ b.prime ∨ b.prime ≠ x.prime ∨ x.prime ≠ y.prime) :
    Point.new a b (some x) (some y) = .err .FieldMismatch := by
  simp only [Point.new, if_pos h]

theorem Point.new_eval {A B mx my p : Nat} (hA : A < p) (hB : B < p)
    (hx : mx < p) (hy : my < p) (hp3 : p ^ 3 < 4294967296) :
    Point.new ⟨A, p⟩ ⟨B, p⟩ (some ⟨mx, p⟩) (some ⟨my, p⟩) =
      if my ^ 2 % p = (mx ^ 3 + A * mx + B) % p then
        .ok ⟨⟨A, p⟩, ⟨B, p⟩, some ⟨mx, p⟩, some ⟨my, p⟩⟩
      else .err .NotOnCurve := by
  have hp0 : p ≠ 0 := by omega
  have hp1 : 1 ≤ p := by omega
  have hp23 : p ^ 2 ≤ p ^ 3 := Nat.pow_le_pow_right hp1 (by omega)
  have hpp : p * p < 4294967296 := by
    have h1 : p * p = p ^ 2 := by ring
    have h2 : p ^ 2 < 4294967296 := lt_of_le_of_lt hp23 hp3
    omega
  have hsq32 : my ^ 2 < 4294967296 :=
    lt_of_lt_of_le (Nat.pow_lt_pow_left hy (by omega)) (le_of_lt
      (lt_of_le_of_lt hp23 hp3))
  have hcube32 : mx ^ 3 < 4294967296 :=
    lt_trans (Nat.pow_lt_pow_left hx (by omega)) hp3
  have hmul32 : A * mx < 4294967296 :=
    lt_trans (mul_lt_mul'' hA hx (Nat.zero_le _) (Nat.zero_le _)) hpp
  have h2p : ∀ u v : Nat, u < p → v < p → u + v < 4294967296 := by
    intro u v hu hv
    rcases Nat.lt_or_ge p 2 with h | h
    · omega
    · have hle : p + p ≤ p * p := by nlinarith
      have := lt_of_le_of_lt hle hpp
      omega
  have hy2 := FieldElement.pow_ok (m := my) (p := p) (e := 2) (by omega) hy hsq32 hpp
  have hx3 := FieldElement.pow_ok (m := mx) (p := p) (e := 3) (by omega) hx hcube32 hpp
  have hax := FieldElement.mul_ok (m := A) (n := mx) (p := p) hp0 hmul32
  have hadd1 := FieldElement.add_ok (m := mx ^ 3 % p) (n := A * mx % p) (p := p)
    hp0 (h2p _ _ (Nat.mod_lt _ (by omega)) (Nat.mod_lt _ (by omega)))
  have hadd2 := FieldElement.add_ok (m := (mx ^ 3 % p + A * mx % p) % p)
    (n := B) (p := p) hp0 (h2p _ _ (Nat.mod_lt _ (by omega)) hB)
  have hR : ((mx ^ 3 % p + A * mx % p) % p + B) % p = (mx ^ 3 + A * mx + B) % p := by
    apply (ZMod.natCast_eq_natCast_iff' _ _ _).mp
    push_cast [ZMod.natCast_mod]
    ring
  simp only [Point.new, if_neg (by simp : ¬ ((⟨A, p⟩ : FieldElement).prime ≠
    (⟨B, p⟩ : FieldElement).prime ∨ (⟨B, p⟩ : FieldElement).prime ≠
    (⟨mx, p⟩ : FieldElement).prime ∨ (⟨mx, p⟩ : FieldElement).prime ≠
    (⟨my, p⟩ : FieldElement).prime)), hy2, hx3, hax, hadd1, hadd2,
    RRes.unwrap_ok, RRes.bind_ok, hR]
  by_cases hc : my ^ 2 % p = (mx ^ 3 + A * mx + B) % p
  · simp [hc]
  · simp [hc, FieldElement.mk.injEq]

/-! ### Inversion lemmas: what a successful outcome implies -/

theorem RRes.bind_eq_ok {α β : Type} {x : RRes α} {f : α → RRes β} {v : β} :
    x.bind f = .ok v ↔ ∃ u, x = .ok u ∧ f u = .ok v := by
  cases x <;> simp [RRes.bind]

theorem RRes.unwrap_eq_ok {α : Type} {x : RRes α} {v : α} :
    x.unwrap = .ok v ↔ x = .ok v := by
  cases x <;> simp [RRes.unwrap]

theorem optUnwrap_eq_ok {α : Type} {o : Option α} {v : α} :
    optUnwrap o = .ok v ↔ o = some v := by
  cases o <;> simp

theorem checkedSub_eq_ok {a b r : Nat} (h : checkedSub a b = .ok r) :
    b ≤ a ∧ r = a - b := by
  by_cases hb : b ≤ a <;> simp [checkedSub, hb] at h
  exact ⟨hb, h.symm⟩

theorem checkedAdd_eq_ok {a b r : Nat} (h : checkedAdd a b = .ok r) :
    r = a + b := by
  by_cases hb : a + b < 4294967296 <;> simp [checkedAdd, hb] at h
  exact h.symm

theorem checkedMul_eq_ok {a b r : Nat} (h : checkedMul a b = .ok r) :
    r = a * b := by
  by_cases hb : a * b < 4294967296 <;> simp [checkedMul, hb] at h
  exact h.symm

theorem checkedRem_eq_ok {a b r : Nat} (h : checkedRem a b = .ok r) :
    b ≠ 0 ∧ r = a % b := by
  by_cases hb : b = 0 <;> simp [checkedRem, hb] at h
  exact ⟨hb, h.symm⟩

theorem checkedPow_eq_ok {a e r : Nat} (h : checkedPow a e = .ok r) :
    r = a ^ e := by
  by_cases hb : a ^ e < 4294967296 <;> simp [checkedPow, hb] at h
  exact h.symm

theorem FieldElement.pow_eq_ok {a : FieldElement} {e : Nat} {t : FieldElement}
    (h : FieldElement.pow a e = .ok t) :
    a.prime ≠ 0 ∧ t = ⟨a.num ^ e % a.prime, a.prime⟩ := by
  simp only [FieldElement.pow, RRes.bind_eq_ok] at h
  obtain ⟨bound, _, _, _, n, hn, r, hr, hret⟩ := h
  obtain ⟨hp0, hrv⟩ := checkedRem_eq_ok hr
  obtain rfl := checkedPow_eq_ok hn
  simp only [RRes.ok.injEq] at hret
  exact ⟨hp0, by rw [← hret, hrv]⟩

theorem FieldElement.mul_eq_ok {a b t : FieldElement}
    (h : FieldElement.mul a b = .ok t) :
    b.prime = a.prime ∧ a.prime ≠ 0 ∧
      t = ⟨a.num * b.num % a.prime, a.prime⟩ := by
  by_cases hpr : a.prime = b.prime
  · rw [FieldElement.mul, if_neg (by simp [hpr])] at h
    simp only [RRes.bind_eq_ok] at h
    obtain ⟨m, hm, r, hr, hret⟩ := h
    obtain ⟨hp0, hrv⟩ := checkedRem_eq_ok hr
    obtain rfl := checkedMul_eq_ok hm
    simp only [RRes.ok.injEq] at hret
    exact ⟨hpr.symm, hp0, by rw [← hret, hrv]⟩
  · simp [FieldElement.mul, hpr] at h

theorem FieldElement.add_eq_ok {a b t : FieldElement}
    (h : FieldElement.add a b = .ok t) :
    b.prime = a.prime ∧ a.prime ≠ 0 ∧
      t = ⟨(a.num + b.num) % a.prime, a.prime⟩ := by
  by_cases hpr : a.prime = b.prime
  · rw [FieldElement.add, if_neg (by simp [hpr])] at h
    simp only [RRes.bind_eq_ok] at h
    obtain ⟨s, hs, r, hr, hret⟩ := h
    obtain ⟨hp0, hrv⟩ := checkedRem_eq_ok hr
    obtain rfl := checkedAdd_eq_ok hs
    simp only [RRes.ok.injEq] at hret
    exact ⟨hpr.symm, hp0, by rw [← hret, hrv]⟩
  · simp [FieldElement.add, hpr] at h

/-! ### The on-curve invariant of produced points (claim C9) -/

theorem Point.new_inv {a b : FieldElement} {x y : Option FieldElement}
    {q : Point} (h : Point.new a b x y = .ok q) : onCurveInv q := by
  match x, y with
  | none, none =>
    simp only [Point.new, RRes.ok.injEq] at h
    intro xv yv hx hy
    rw [← h] at hx
    simp at hx
  | some xv, none => simp [Point.new] at h
  | none, some yv => simp [Point.new] at h
  | some xv, some yv =>
    by_cases hg : a.prime ≠ b.prime ∨ b.prime ≠ xv.prime ∨ xv.prime ≠ yv.prime
    · simp [Point.new_mismatch hg] at h
    · push_neg at hg
      obtain ⟨hab, hbx, hxy⟩ := hg
      rw [Point.new, if_neg (by simp [hab, hbx, hxy])] at h
      simp only [RRes.bind_eq_ok, RRes.unwrap_eq_ok] at h
      obtain ⟨lhs, hlhs, rhs0, hrhs0, rhs1, hrhs1, rhs01, hrhs01, rhs, hrhs,
        hfin⟩ := h
      by_cases hne : lhs = rhs
      · rw [if_neg (by simp [hne])] at hfin
        simp only [RRes.ok.injEq] at hfin
        obtain ⟨hp0, hlv⟩ := FieldElement.pow_eq_ok hlhs
        obtain ⟨_, hxv⟩ := FieldElement.pow_eq_ok hrhs0
        obtain ⟨_, _, hr1⟩ := FieldElement.mul_eq_ok hrhs1
        obtain ⟨_, _, hr01⟩ := FieldElement.add_eq_ok hrhs01
        obtain ⟨_, _, hrv⟩ := FieldElement.add_eq_ok hrhs
        subst hlv hxv hr1 hr01 hrv
        subst hfin
        intro xv' yv' hx' hy'
        simp only [Option.some.injEq] at hx' hy'
        subst hx'
        subst hy'
        have exv : xv.prime = a.prime := by
          rw [hab]
          exact hbx.symm
        have eyv : yv.prime = a.prime := by
          rw [hab, hbx]
          exact hxy.symm
        simp only [FieldElement.mk.injEq] at hne
        obtain ⟨hnum, -⟩ := hne
        dsimp only at hnum ⊢
        rw [exv, eyv] at hnum
        refine ⟨hab.symm, exv, eyv, ?_⟩
        rw [hnum]
        apply (ZMod.natCast_eq_natCast_iff' _ _ _).mp
        push_cast [ZMod.natCast_mod]
        ring
      · rw [if_pos (by simp [hne])] at hfin
        simp at hfin

theorem Point.addTail_shape {p1 : Point} {x1 y1 x2 s : FieldElement} {q : Point}
    (h : Point.addTail p1 x1 y1 x2 s = .ok q) :
    ∃ x y, Point.new p1.a p1.b x y = .ok q := by
  simp only [Point.addTail, RRes.bind_eq_ok, RRes.unwrap_eq_ok] at h
  obtain ⟨s2, -, t1, -, x3, -, d, -, t2, -, y3, -, hnew⟩ := h
  exact ⟨some x3, some y3, hnew⟩

theorem Point.addDistinct_shape {p1 : Point} {x1 y1 x2 y2 : FieldElement}
    {q : Point} (h : Point.addDistinct p1 x1 y1 x2 y2 = .ok q) :
    ∃ x y, Point.new p1.a p1.b x y = .ok q := by
  simp only [Point.addDistinct, RRes.bind_eq_ok, RRes.unwrap_eq_ok] at h
  obtain ⟨dy, -, dx, -, s, -, htail⟩ := h
  exact Point.addTail_shape htail

/-- Every success of `Point::add` is produced by its internal
(re-)validating `Point::new` call. -/
theorem Point.add_shape {p1 p2 q : Point} (h : Point.add p1 p2 = .ok q) :
    ∃ x y, Point.new p1.a p1.b x y = .ok q := by
  unfold Point.add at h
  split at h
  · simp at h
  · split at h
    · split at h
      · exact ⟨none, none, RRes.unwrap_eq_ok.mp h⟩
      · simp only [RRes.bind_eq_ok, RRes.unwrap_eq_ok] at h
        obtain ⟨yv, -, d, -, fe, -, hnew⟩ := h
        exact ⟨p2.x, some fe, hnew⟩
    · split at h
      · simp only [RRes.bind_eq_ok, RRes.unwrap_eq_ok] at h
        obtain ⟨yv, -, d, -, fe, -, hnew⟩ := h
        exact ⟨p1.x, some fe, hnew⟩
      · simp only [RRes.bind_eq_ok] at h
        obtain ⟨x1, -, y1, -, x2, -, y2, -, hbody⟩ := h
        split at hbody
        · split at hbody
          · exact ⟨none, none, RRes.unwrap_eq_ok.mp hbody⟩
          · simp only [RRes.bind_eq_ok, RRes.unwrap_eq_ok] at hbody
            obtain ⟨sq, -, numer, -, s, -, htail⟩ := hbody
            exact Point.addTail_shape htail
        · split at hbody
          · simp only [RRes.bind_eq_ok] at hbody
            obtain ⟨sum, -, hif⟩ := hbody
            split at hif
            · exact ⟨none, none, RRes.unwrap_eq_ok.mp hif⟩
            · exact Point.addDistinct_shape hif
          · exact Point.addDistinct_shape hbody

theorem Point.add_inv {p1 p2 q : Point} (h : Point.add p1 p2 = .ok q) :
    onCurveInv q := by
  obtain ⟨x, y, hnew⟩ := Point.add_shape h
  exact Point.new_inv hnew

theorem Point.scalarLoop_inv {p : Point} :
    ∀ k prod q, Point.scalarLoop p k prod = .ok q → onCurveInv prod →
      onCurveInv q := by
  intro k
  induction k with
  | zero =>
    intro prod q h hprod
    simp only [Point.scalarLoop, RRes.ok.injEq] at h
    rw [← h]
    exact hprod
  | succ k ih =>
    intro prod q h hprod
    simp only [Point.scalarLoop, RRes.bind_eq_ok, RRes.unwrap_eq_ok] at h
    obtain ⟨q', hq', hrec⟩ := h
    exact ih q' q hrec (Point.add_inv hq')

theorem Point.scalar_mul_inv {p : Point} {k : Nat} {q : Point}
    (hp : onCurveInv p) (h : Point.scalar_mul p k = .ok q) : onCurveInv q := by
  unfold Point.scalar_mul at h
  split at h
  · exact Point.new_inv (RRes.unwrap_eq_ok.mp h)
  · split at h
    · exact Point.scalarLoop_inv _ _ _ h hp
    · simp only [RRes.ok.injEq] at h
      rw [← h]
      exact hp

/-! ### Branch evaluations of `Point::add`: identity cases and the
vertical-line case -/

theorem Point.add_inf_inf (a b : FieldElement) :
    Point.add ⟨a, b, none, none⟩ ⟨a, b, none, none⟩ = .ok ⟨a, b, none, none⟩ := by
  simp [Point.add, Point.new]

theorem Point.add_inf_left {A B mx my p : Nat} (hA : A < p) (hB : B < p)
    (hx : mx < p) (hy : my < p) (hp3 : p ^ 3 < 4294967296)
    (hcurve : my ^ 2 % p = (mx ^ 3 + A * mx + B) % p) :
    Point.add ⟨⟨A, p⟩, ⟨B, p⟩, none, none⟩
        ⟨⟨A, p⟩, ⟨B, p⟩, some ⟨mx, p⟩, some ⟨my, p⟩⟩ =
      if my = 0 then .panic
      else .ok ⟨⟨A, p⟩, ⟨B, p⟩, some ⟨mx, p⟩, some ⟨p - my, p⟩⟩ := by
  have hp0 : p ≠ 0 := by omega
  rw [Point.add, if_neg (by simp), if_pos (by simp), if_neg (by simp)]
  simp only [optUnwrap_some, RRes.bind_ok, checkedSub_ok (le_of_lt hy)]
  by_cases h0 : my = 0
  · subst h0
    rw [if_pos rfl]
    simp [FieldElement.new, Nat.sub_zero, le_refl, RRes.bind]
  · rw [if_neg h0]
    have hlt : p - my < p := by omega
    rw [show FieldElement.new (p - my) p = .ok ⟨p - my, p⟩ by
      simp [FieldElement.new, hlt, Nat.not_le.mpr hlt]]
    simp only [RRes.unwrap_ok, RRes.bind_ok]
    rw [Point.new_eval hA hB hx hlt hp3,
      if_pos (by rw [flip_sq_mod (le_of_lt hy)]; exact hcurve)]
    rfl

theorem Point.add_inf_right {A B mx my p : Nat} (hA : A < p) (hB : B < p)
    (hx : mx < p) (hy : my < p) (hp3 : p ^ 3 < 4294967296)
    (hcurve : my ^ 2 % p = (mx ^ 3 + A * mx + B) % p) :
    Point.add ⟨⟨A, p⟩, ⟨B, p⟩, some ⟨mx, p⟩, some ⟨my, p⟩⟩
        ⟨⟨A, p⟩, ⟨B, p⟩, none, none⟩ =
      if my = 0 then .panic
      else .ok ⟨⟨A, p⟩, ⟨B, p⟩, some ⟨mx, p⟩, some ⟨p - my, p⟩⟩ := by
  have hp0 : p ≠ 0 := by omega
  rw [Point.add, if_neg (by simp), if_neg (by simp), if_pos (by simp),
    if_neg (by simp)]
  simp only [optUnwrap_some, RRes.bind_ok, checkedSub_ok (le_of_lt hy)]
  by_cases h0 : my = 0
  · subst h0
    rw [if_pos rfl]
    simp [FieldElement.new, Nat.sub_zero, le_refl, RRes.bind]
  · rw [if_neg h0]
    have hlt : p - my < p := by omega
    rw [show FieldElement.new (p - my) p = .ok ⟨p - my, p⟩ by
      simp [FieldElement.new, hlt, Nat.not_le.mpr hlt]]
    simp only [RRes.unwrap_ok, RRes.bind_ok]
    rw [Point.new_eval hA hB hx hlt hp3,
      if_pos (by rw [flip_sq_mod (le_of_lt hy)]; exact hcurve)]
    rfl

theorem Point.add_vertical {A B m n1 n2 p : Nat}
    (hn1 : n1 < p) (hn2 : n2 < p) (hodd : p % 2 = 1)
    (hsum : (n1 + n2) % p = 0) (h2p : p + p < 4294967296) :
    Point.add ⟨⟨A, p⟩, ⟨B, p⟩, some ⟨m, p⟩, some ⟨n1, p⟩⟩
        ⟨⟨A, p⟩, ⟨B, p⟩, some ⟨m, p⟩, some ⟨n2, p⟩⟩ =
      .ok ⟨⟨A, p⟩, ⟨B, p⟩, none, none⟩ := by
  have hp0 : 0 < p := by omega
  obtain ⟨c, hc⟩ := Nat.dvd_of_mod_eq_zero hsum
  have hc2 : c < 2 := by nlinarith
  rw [Point.add, if_neg (by simp), if_neg (by simp), if_neg (by simp)]
  simp only [optUnwrap_some, RRes.bind_ok]
  by_cases he : n1 = n2
  · subst he
    have h10 : n1 = 0 := by
      rcases (by omega : c = 0 ∨ c = 1) with rfl | rfl <;> omega
    rw [if_pos (by simp), if_pos (by simp [h10])]
    simp [Point.new]
  · have hsump : n1 + n2 = p := by
      rcases (by omega : c = 0 ∨ c = 1) with rfl | rfl <;> omega
    rw [if_neg (by simp [he]), if_pos (by simp)]
    rw [checkedAdd_ok (by omega)]
    simp only [RRes.bind_ok]
    rw [if_pos (by simp [hsump])]
    simp [Point.new]

theorem cast_curve {p n m A B : Nat}
    (h : n ^ 2 % p = (m ^ 3 + A * m + B) % p) :
    ((n : ZMod p)) ^ 2 = (m : ZMod p) ^ 3 + (A : ZMod p) * m + B := by
  have hz := (ZMod.natCast_eq_natCast_iff' (n ^ 2) (m ^ 3 + A * m + B) p).mpr h
  push_cast at hz
  exact hz

theorem cast_ne_of_ne {p m1 m2 : Nat} (h : m1 ≠ m2) (h1 : m1 < p)
    (h2 : m2 < p) : (m1 : ZMod p) ≠ (m2 : ZMod p) := by
  intro hcon
  apply h
  have := congrArg ZMod.val hcon
  rwa [ZMod.val_cast_of_lt h1, ZMod.val_cast_of_lt h2] at this


theorem subModN_lt {p : Nat} (hp : 0 < p) (m n : Nat) : subModN p m n < p :=
  Nat.mod_lt _ hp

theorem divModN_lt {p : Nat} (hp : 0 < p) (m n : Nat) : divModN p m n < p :=
  Nat.mod_lt _ hp

theorem mulModN_lt {p : Nat} (hp : 0 < p) (m n : Nat) : mulModN p m n < p :=
  Nat.mod_lt _ hp

theorem addModN_lt {p : Nat} (hp : 0 < p) (m n : Nat) : addModN p m n < p :=
  Nat.mod_lt _ hp

theorem sqModN_lt {p : Nat} (hp : 0 < p) (m : Nat) : sqModN p m < p :=
  Nat.mod_lt _ hp

theorem FieldElement.sub_okN {m n p : Nat} (hm : m < p) (hn : n < p) :
    FieldElement.sub ⟨m, p⟩ ⟨n, p⟩ = .ok ⟨subModN p m n, p⟩ :=
  FieldElement.sub_ok hm hn

theorem FieldElement.div_okN {m n p : Nat} (hm : m < p) (hn0 : n ≠ 0)
    (hn : n < p) (hp3 : 3 ≤ p) (hpow : n ^ (p - 2) < 4294967296)
    (hpp : p * p < 4294967296) :
    FieldElement.div ⟨m, p⟩ ⟨n, p⟩ = .ok ⟨divModN p m n, p⟩ :=
  FieldElement.div_ok hm hn0 hn hp3 hpow hpp

theorem FieldElement.mul_okN {m n p : Nat} (hm : m < p) (hn : n < p)
    (hpp : p * p < 4294967296) :
    FieldElement.mul ⟨m, p⟩ ⟨n, p⟩ = .ok ⟨mulModN p m n, p⟩ :=
  FieldElement.mul_ok (by omega)
    (lt_trans (mul_lt_mul'' hm hn (Nat.zero_le _) (Nat.zero_le _)) hpp)

theorem FieldElement.add_okN {m n p : Nat} (hm : m < p) (hn : n < p)
    (hpp : p * p < 4294967296) :
    FieldElement.add ⟨m, p⟩ ⟨n, p⟩ = .ok ⟨addModN p m n, p⟩ := by
  have hb : m + n < 4294967296 := by
    rcases Nat.lt_or_ge p 2 with h | h
    · omega
    · have hle : p + p ≤ p * p := by nlinarith
      have := lt_of_le_of_lt hle hpp
      omega
  exact FieldElement.add_ok (by omega) hb

theorem FieldElement.sq_okN {m p : Nat} (hm : m < p)
    (hpp : p * p < 4294967296) :
    FieldElement.pow ⟨m, p⟩ 2 = .ok ⟨sqModN p m, p⟩ := by
  have hmp : m ^ 2 < p ^ 2 := Nat.pow_lt_pow_left hm (by omega)
  have hppe : p ^ 2 = p * p := by ring
  exact FieldElement.pow_ok (by omega) hm
    (by rw [hppe] at hmp; exact lt_trans hmp hpp) hpp

theorem cast_subModN {p m n : Nat} (hn : n ≤ p) :
    ((subModN p m n : Nat) : ZMod p) = (m : ZMod p) - (n : ZMod p) :=
  cast_sub_mod hn

theorem cast_mulModN {p m n : Nat} :
    ((mulModN p m n : Nat) : ZMod p) = (m : ZMod p) * (n : ZMod p) :=
  cast_mul_mod

theorem cast_addModN {p m n : Nat} :
    ((addModN p m n : Nat) : ZMod p) = (m : ZMod p) + (n : ZMod p) :=
  cast_add_mod

theorem cast_sqModN {p m : Nat} :
    ((sqModN p m : Nat) : ZMod p) = (m : ZMod p) ^ 2 :=
  cast_pow_mod

theorem cast_divModN {p m n : Nat} :
    ((divModN p m n : Nat) : ZMod p) =
      (m : ZMod p) * ((n : ZMod p)) ^ (p - 2) := by
  rw [show ((divModN p m n : Nat) : ZMod p) =
    (m : ZMod p) * ((invModN p n : Nat) : ZMod p) from cast_mul_mod]
  rw [show ((invModN p n : Nat) : ZMod p) = ((n : ZMod p)) ^ (p - 2) from
    cast_pow_mod]

theorem zmod_pow_sub_two_mul {p : Nat} (hp : Nat.Prime p) (hp2 : 2 < p)
    {z : ZMod p} (hz : z ≠ 0) : z ^ (p - 2) * z = 1 := by
  haveI : Fact p.Prime := ⟨hp⟩
  rw [← pow_succ, (show p - 2 + 1 = p - 1 by omega)]
  exact ZMod.pow_card_sub_one_eq_one hz

/-- Completion of `Point::add` in the distinct-points slope case: for
an odd prime, on-curve operands with distinct `x` coordinates and
`u32`-sized intermediates, the whole computation succeeds with a
concrete result point — in particular the re-validating `Point::new`
at `(x₃, y₃)` accepts it. -/
theorem Point.addDistinct_complete {A B m1 n1 m2 n2 p : Nat}
    (hp : Nat.Prime p) (hp2 : 2 < p) (hp3 : p ^ 3 < 4294967296)
    (hA : A < p) (hB : B < p) (hm1 : m1 < p) (hn1 : n1 < p)
    (hm2 : m2 < p) (hn2 : n2 < p)
    (hc1 : n1 ^ 2 % p = (m1 ^ 3 + A * m1 + B) % p)
    (hc2 : n2 ^ 2 % p = (m2 ^ 3 + A * m2 + B) % p)
    (hmm : m1 ≠ m2)
    (hpw : (subModN p m2 m1) ^ (p - 2) < 4294967296) :
    Point.add ⟨⟨A, p⟩, ⟨B, p⟩, some ⟨m1, p⟩, some ⟨n1, p⟩⟩
        ⟨⟨A, p⟩, ⟨B, p⟩, some ⟨m2, p⟩, some ⟨n2, p⟩⟩ =
      .ok ⟨⟨A, p⟩, ⟨B, p⟩, some ⟨subModN p (subModN p (sqModN p (divModN p (subModN p n2 n1) (subModN p m2 m1))) m1) m2, p⟩, some ⟨subModN p (mulModN p (divModN p (subModN p n2 n1) (subModN p m2 m1)) (subModN p m1 (subModN p (subModN p (sqModN p (divModN p (subModN p n2 n1) (subModN p m2 m1))) m1) m2))) n1, p⟩⟩ := by
  have hp0' : 0 < p := by omega
  have hp0 : p ≠ 0 := by omega
  have hp1 : 1 ≤ p := by omega
  have hp23 : p ^ 2 ≤ p ^ 3 := Nat.pow_le_pow_right hp1 (by omega)
  have hpp : p * p < 4294967296 := by
    have h1 : p * p = p ^ 2 := by ring
    have h2 : p ^ 2 < 4294967296 := lt_of_le_of_lt hp23 hp3
    omega
  haveI : Fact p.Prime := ⟨hp⟩
  have hdx0 : (subModN p m2 m1) ≠ 0 := by
    intro h0
    have h0' : (m2 + p - m1) % p = 0 := h0
    obtain ⟨c, hc⟩ := Nat.dvd_of_mod_eq_zero h0'
    rcases c with _ | _ | n
    · omega
    · omega
    · have h2c := Nat.mul_le_mul_left p (show 2 ≤ n + 1 + 1 by omega)
      omega
  -- casts of the intermediate values into `ZMod p`
  have e1 := cast_curve hc1
  have e2 := cast_curve hc2
  have hxne : (m1 : ZMod p) ≠ (m2 : ZMod p) := cast_ne_of_ne hmm hm1 hm2
  have hdxz : ((m2 : ZMod p) - m1) ≠ 0 := sub_ne_zero.mpr hxne.symm
  have cdy : ((subModN p n2 n1 : Nat) : ZMod p) = (n2 : ZMod p) - n1 :=
    cast_subModN (le_of_lt hn1)
  have cdx : ((subModN p m2 m1 : Nat) : ZMod p) = (m2 : ZMod p) - m1 :=
    cast_subModN (le_of_lt hm1)
  have csv : ((divModN p (subModN p n2 n1) (subModN p m2 m1) : Nat) : ZMod p) =
      ((n2 : ZMod p) - n1) * ((m2 : ZMod p) - m1) ^ (p - 2) := by
    rw [cast_divModN, cdy, cdx]
  have ct1 : ((subModN p (sqModN p (divModN p (subModN p n2 n1) (subModN p m2 m1))) m1 : Nat) : ZMod p) =
      ((divModN p (subModN p n2 n1) (subModN p m2 m1) : Nat) : ZMod p) ^ 2 - m1 := by
    rw [cast_subModN (le_of_lt hm1), cast_sqModN]
  have cx3 : ((subModN p (subModN p (sqModN p (divModN p (subModN p n2 n1) (subModN p m2 m1))) m1) m2 : Nat) : ZMod p) =
      ((divModN p (subModN p n2 n1) (subModN p m2 m1) : Nat) : ZMod p) ^ 2 - m1 - m2 := by
    rw [cast_subModN (le_of_lt hm2), ct1]
  have cdd : ((subModN p m1 (subModN p (subModN p (sqModN p (divModN p (subModN p n2 n1) (subModN p m2 m1))) m1) m2) : Nat) : ZMod p) =
      (m1 : ZMod p) - (((divModN p (subModN p n2 n1) (subModN p m2 m1) : Nat) : ZMod p) ^ 2 - m1 - m2) := by
    rw [cast_subModN (le_of_lt (subModN_lt hp0' (subModN p (sqModN p (divModN p (subModN p n2 n1) (subModN p m2 m1))) m1) m2)), cx3]
  have ct2 : ((mulModN p (divModN p (subModN p n2 n1) (subModN p m2 m1)) (subModN p m1 (subModN p (subModN p (sqModN p (divModN p (subModN p n2 n1) (subModN p m2 m1))) m1) m2)) : Nat) : ZMod p) =
      ((divModN p (subModN p n2 n1) (subModN p m2 m1) : Nat) : ZMod p) *
        ((m1 : ZMod p) - (((divModN p (subModN p n2 n1) (subModN p m2 m1) : Nat) : ZMod p) ^ 2 - m1 - m2)) := by
    rw [cast_mulModN, cdd]
  have cy3 : ((subModN p (mulModN p (divModN p (subModN p n2 n1) (subModN p m2 m1)) (subModN p m1 (subModN p (subModN p (sqModN p (divModN p (subModN p n2 n1) (subModN p m2 m1))) m1) m2))) n1 : Nat) : ZMod p) =
      ((divModN p (subModN p n2 n1) (subModN p m2 m1) : Nat) : ZMod p) *
        ((m1 : ZMod p) - (((divModN p (subModN p n2 n1) (subModN p m2 m1) : Nat) : ZMod p) ^ 2 - m1 - m2)) -
        (n1 : ZMod p) := by
    rw [cast_subModN (le_of_lt hn1), ct2]
  have hrel : ((divModN p (subModN p n2 n1) (subModN p m2 m1) : Nat) : ZMod p) * ((m2 : ZMod p) - m1) =
      (n2 : ZMod p) - n1 := by
    rw [csv, mul_assoc, zmod_pow_sub_two_mul hp hp2 hdxz, mul_one]
  have hclose := slope_closure e1 e2 (Or.inr ⟨hxne, hrel⟩)
  have hcond : (subModN p (mulModN p (divModN p (subModN p n2 n1) (subModN p m2 m1)) (subModN p m1 (subModN p (subModN p (sqModN p (divModN p (subModN p n2 n1) (subModN p m2 m1))) m1) m2))) n1) ^ 2 % p = ((subModN p (subModN p (sqModN p (divModN p (subModN p n2 n1) (subModN p m2 m1))) m1) m2) ^ 3 + A * (subModN p (subModN p (sqModN p (divModN p (subModN p n2 n1) (subModN p m2 m1))) m1) m2) + B) % p := by
    apply (ZMod.natCast_eq_natCast_iff' _ _ _).mp
    simp only [Nat.cast_pow, Nat.cast_add, Nat.cast_mul]
    rw [cy3, cx3]
    linear_combination hclose
  rw [Point.add, if_neg (by simp), if_neg (by simp), if_neg (by simp)]
  simp only [optUnwrap_some, RRes.bind_ok]
  rw [if_neg (by simp [hmm]), if_neg (by simp [hmm])]
  rw [Point.addDistinct]
  rw [FieldElement.sub_okN hn2 hn1]
  simp only [RRes.unwrap_ok, RRes.bind_ok]
  rw [FieldElement.sub_okN hm2 hm1]
  simp only [RRes.unwrap_ok, RRes.bind_ok]
  rw [FieldElement.div_okN (subModN_lt hp0' n2 n1) hdx0
    (subModN_lt hp0' m2 m1) (by omega) hpw hpp]
  simp only [RRes.unwrap_ok, RRes.bind_ok]
  rw [Point.addTail]
  rw [FieldElement.sq_okN (divModN_lt hp0' (subModN p n2 n1) (subModN p m2 m1)) hpp]
  simp only [RRes.bind_ok]
  rw [FieldElement.sub_okN (sqModN_lt hp0' (divModN p (subModN p n2 n1) (subModN p m2 m1))) hm1]
  simp only [RRes.unwrap_ok, RRes.bind_ok]
  rw [FieldElement.sub_okN (subModN_lt hp0' (sqModN p (divModN p (subModN p n2 n1) (subModN p m2 m1))) m1) hm2]
  simp only [RRes.unwrap_ok, RRes.bind_ok]
  rw [FieldElement.sub_okN hm1 (subModN_lt hp0' (subModN p (sqModN p (divModN p (subModN p n2 n1) (subModN p m2 m1))) m1) m2)]
  simp only [RRes.unwrap_ok, RRes.bind_ok]
  rw [FieldElement.mul_okN (divModN_lt hp0' (subModN p n2 n1) (subModN p m2 m1))
    (subModN_lt hp0' m1 (subModN p (subModN p (sqModN p (divModN p (subModN p n2 n1) (subModN p m2 m1))) m1) m2)) hpp]
  simp only [RRes.unwrap_ok, RRes.bind_ok]
  rw [FieldElement.sub_okN (mulModN_lt hp0' (divModN p (subModN p n2 n1) (subModN p m2 m1)) (subModN p m1 (subModN p (subModN p (sqModN p (divModN p (subModN p n2 n1) (subModN p m2 m1))) m1) m2))) hn1]
  simp only [RRes.unwrap_ok, RRes.bind_ok]
  rw [Point.new_eval hA hB (subModN_lt hp0' (subModN p (sqModN p (divModN p (subModN p n2 n1) (subModN p m2 m1))) m1) m2)
    (subModN_lt hp0' (mulModN p (divModN p (subModN p n2 n1) (subModN p m2 m1)) (subModN p m1 (subModN p (subModN p (sqModN p (divModN p (subModN p n2 n1) (subModN p m2 m1))) m1) m2))) n1) hp3]
  rw [if_pos hcond]
  rfl

/-- Completion of `Point::add` in the doubling slope case: for an odd
prime, an on-curve operand with nonzero `y` and `u32`-sized
intermediates, doubling succeeds with a concrete result point. -/
theorem Point.addDouble_complete {A B m1 n1 p : Nat}
    (hp : Nat.Prime p) (hp2 : 2 < p) (hp3 : p ^ 3 < 4294967296)
    (hA : A < p) (hB : B < p) (hm1 : m1 < p) (hn1 : n1 < p)
    (hc1 : n1 ^ 2 % p = (m1 ^ 3 + A * m1 + B) % p)
    (hn10 : n1 ≠ 0)
    (hpw : (n1 * 2 % p) ^ (p - 2) < 4294967296) :
    Point.add ⟨⟨A, p⟩, ⟨B, p⟩, some ⟨m1, p⟩, some ⟨n1, p⟩⟩
        ⟨⟨A, p⟩, ⟨B, p⟩, some ⟨m1, p⟩, some ⟨n1, p⟩⟩ =
      .ok ⟨⟨A, p⟩, ⟨B, p⟩, some ⟨subModN p (subModN p (sqModN p (divModN p (addModN p (sqModN p m1 * 3 % p) A) (n1 * 2 % p))) m1) m1, p⟩, some ⟨subModN p (mulModN p (divModN p (addModN p (sqModN p m1 * 3 % p) A) (n1 * 2 % p)) (subModN p m1 (subModN p (subModN p (sqModN p (divModN p (addModN p (sqModN p m1 * 3 % p) A) (n1 * 2 % p))) m1) m1))) n1, p⟩⟩ := by
  have hp0' : 0 < p := by omega
  have hp0 : p ≠ 0 := by omega
  have hp1 : 1 ≤ p := by omega
  have hp23 : p ^ 2 ≤ p ^ 3 := Nat.pow_le_pow_right hp1 (by omega)
  have hpp : p * p < 4294967296 := by
    have h1 : p * p = p ^ 2 := by ring
    have h2 : p ^ 2 < 4294967296 := lt_of_le_of_lt hp23 hp3
    omega
  haveI : Fact p.Prime := ⟨hp⟩
  have hden0 : (n1 * 2 % p) ≠ 0 := by
    intro h0
    rcases (Nat.Prime.dvd_mul hp).mp (Nat.dvd_of_mod_eq_zero h0) with hd | hd
    · have := Nat.le_of_dvd (by omega) hd
      omega
    · have := Nat.le_of_dvd (by omega) hd
      omega
  have e1 := cast_curve hc1
  have hn1z : (n1 : ZMod p) ≠ 0 := cast_ne_zero_of_lt hn10 hn1
  have h2z : (2 : ZMod p) ≠ 0 := by
    simpa using cast_ne_zero_of_lt (show (2 : Nat) ≠ 0 by omega) hp2
  have h2n1z : 2 * (n1 : ZMod p) ≠ 0 := mul_ne_zero h2z hn1z
  have cnum : ((addModN p (sqModN p m1 * 3 % p) A : Nat) : ZMod p) = 3 * (m1 : ZMod p) ^ 2 + A := by
    rw [cast_addModN]
    rw [show (((sqModN p m1 * 3 % p) : Nat) : ZMod p) =
      ((m1 : ZMod p)) ^ 2 * 3 from by rw [cast_mul_mod, cast_sqModN]; norm_num]
    ring
  have cden : (((n1 * 2 % p) : Nat) : ZMod p) = 2 * (n1 : ZMod p) := by
    rw [cast_mul_mod]
    push_cast
    ring
  have csv : ((divModN p (addModN p (sqModN p m1 * 3 % p) A) (n1 * 2 % p) : Nat) : ZMod p) =
      (3 * (m1 : ZMod p) ^ 2 + A) * (2 * (n1 : ZMod p)) ^ (p - 2) := by
    rw [cast_divModN, cnum, cden]
  have hrel2 : ((divModN p (addModN p (sqModN p m1 * 3 % p) A) (n1 * 2 % p) : Nat) : ZMod p) * (2 * (n1 : ZMod p)) =
      3 * (m1 : ZMod p) ^ 2 + A := by
    rw [csv, mul_assoc, zmod_pow_sub_two_mul hp hp2 h2n1z, mul_one]
  have hclose := slope_closure e1 e1 (Or.inl ⟨rfl, rfl, h2n1z, hrel2⟩)
  have ct1 : ((subModN p (sqModN p (divModN p (addModN p (sqModN p m1 * 3 % p) A) (n1 * 2 % p))) m1 : Nat) : ZMod p) =
      ((divModN p (addModN p (sqModN p m1 * 3 % p) A) (n1 * 2 % p) : Nat) : ZMod p) ^ 2 - m1 := by
    rw [cast_subModN (le_of_lt hm1), cast_sqModN]
  have cx3 : ((subModN p (subModN p (sqModN p (divModN p (addModN p (sqModN p m1 * 3 % p) A) (n1 * 2 % p))) m1) m1 : Nat) : ZMod p) =
      ((divModN p (addModN p (sqModN p m1 * 3 % p) A) (n1 * 2 % p) : Nat) : ZMod p) ^ 2 - m1 - m1 := by
    rw [cast_subModN (le_of_lt hm1), ct1]
  have cdd : ((subModN p m1 (subModN p (subModN p (sqModN p (divModN p (addModN p (sqModN p m1 * 3 % p) A) (n1 * 2 % p))) m1) m1) : Nat) : ZMod p) =
      (m1 : ZMod p) - (((divModN p (addModN p (sqModN p m1 * 3 % p) A) (n1 * 2 % p) : Nat) : ZMod p) ^ 2 - m1 - m1) := by
    rw [cast_subModN (le_of_lt (subModN_lt hp0' (subModN p (sqModN p (divModN p (addModN p (sqModN p m1 * 3 % p) A) (n1 * 2 % p))) m1) m1)), cx3]
  have ct2 : ((mulModN p (divModN p (addModN p (sqModN p m1 * 3 % p) A) (n1 * 2 % p)) (subModN p m1 (subModN p (subModN p (sqModN p (divModN p (addModN p (sqModN p m1 * 3 % p) A) (n1 * 2 % p))) m1) m1)) : Nat) : ZMod p) =
      ((divModN p (addModN p (sqModN p m1 * 3 % p) A) (n1 * 2 % p) : Nat) : ZMod p) *
        ((m1 : ZMod p) - (((divModN p (addModN p (sqModN p m1 * 3 % p) A) (n1 * 2 % p) : Nat) : ZMod p) ^ 2 - m1 - m1)) := by
    rw [cast_mulModN, cdd]
  have cy3 : ((subModN p (mulModN p (divModN p (addModN p (sqModN p m1 * 3 % p) A) (n1 * 2 % p)) (subModN p m1 (subModN p (subModN p (sqModN p (divModN p (addModN p (sqModN p m1 * 3 % p) A) (n1 * 2 % p))) m1) m1))) n1 : Nat) : ZMod p) =
      ((divModN p (addModN p (sqModN p m1 * 3 % p) A) (n1 * 2 % p) : Nat) : ZMod p) *
        ((m1 : ZMod p) - (((divModN p (addModN p (sqModN p m1 * 3 % p) A) (n1 * 2 % p) : Nat) : ZMod p) ^ 2 - m1 - m1)) -
        (n1 : ZMod p) := by
    rw [cast_subModN (le_of_lt hn1), ct2]
  have hcond : (subModN p (mulModN p (divModN p (addModN p (sqModN p m1 * 3 % p) A) (n1 * 2 % p)) (subModN p m1 (subModN p (subModN p (sqModN p (divModN p (addModN p (sqModN p m1 * 3 % p) A) (n1 * 2 % p))) m1) m1))) n1) ^ 2 % p = ((subModN p (subModN p (sqModN p (divModN p (addModN p (sqModN p m1 * 3 % p) A) (n1 * 2 % p))) m1) m1) ^ 3 + A * (subModN p (subModN p (sqModN p (divModN p (addModN p (sqModN p m1 * 3 % p) A) (n1 * 2 % p))) m1) m1) + B) % p := by
    apply (ZMod.natCast_eq_natCast_iff' _ _ _).mp
    simp only [Nat.cast_pow, Nat.cast_add, Nat.cast_mul]
    rw [cy3, cx3]
    linear_combination hclose
  rw [Point.add, if_neg (by simp), if_neg (by simp), if_neg (by simp)]
  simp only [optUnwrap_some, RRes.bind_ok]
  rw [if_pos (by simp), if_neg (by simp [hn10])]
  rw [FieldElement.sq_okN hm1 hpp]
  simp only [RRes.bind_ok, FieldElement.scalar_mul]
  rw [FieldElement.add_okN (m := sqModN p m1 * 3 % p) (n := A) (p := p)
    (Nat.mod_lt _ hp0') hA hpp]
  simp only [RRes.unwrap_ok, RRes.bind_ok]
  rw [FieldElement.div_okN (m := addModN p (sqModN p m1 * 3 % p) A) (n := n1 * 2 % p) (p := p)
    (addModN_lt hp0' _ _) hden0 (Nat.mod_lt _ hp0') (by omega) hpw hpp]
  simp only [RRes.unwrap_ok, RRes.bind_ok]
  rw [Point.addTail]
  rw [FieldElement.sq_okN (divModN_lt hp0' (addModN p (sqModN p m1 * 3 % p) A) (n1 * 2 % p)) hpp]
  simp only [RRes.bind_ok]
  rw [FieldElement.sub_okN (sqModN_lt hp0' (divModN p (addModN p (sqModN p m1 * 3 % p) A) (n1 * 2 % p))) hm1]
  simp only [RRes.unwrap_ok, RRes.bind_ok]
  rw [FieldElement.sub_okN (subModN_lt hp0' (sqModN p (divModN p (addModN p (sqModN p m1 * 3 % p) A) (n1 * 2 % p))) m1) hm1]
  simp only [RRes.unwrap_ok, RRes.bind_ok]
  rw [FieldElement.sub_okN hm1 (subModN_lt hp0' (subModN p (sqModN p (divModN p (addModN p (sqModN p m1 * 3 % p) A) (n1 * 2 % p))) m1) m1)]
  simp only [RRes.unwrap_ok, RRes.bind_ok]
  rw [FieldElement.mul_okN (divModN_lt hp0' (addModN p (sqModN p m1 * 3 % p) A) (n1 * 2 % p))
    (subModN_lt hp0' m1 (subModN p (subModN p (sqModN p (divModN p (addModN p (sqModN p m1 * 3 % p) A) (n1 * 2 % p))) m1) m1)) hpp]
  simp only [RRes.unwrap_ok, RRes.bind_ok]
  rw [FieldElement.sub_okN (mulModN_lt hp0' (divModN p (addModN p (sqModN p m1 * 3 % p) A) (n1 * 2 % p)) (subModN p m1 (subModN p (subModN p (sqModN p (divModN p (addModN p (sqModN p m1 * 3 % p) A) (n1 * 2 % p))) m1) m1))) hn1]
  simp only [RRes.unwrap_ok, RRes.bind_ok]
  rw [Point.new_eval hA hB (subModN_lt hp0' (subModN p (sqModN p (divModN p (addModN p (sqModN p m1 * 3 % p) A) (n1 * 2 % p))) m1) m1)
    (subModN_lt hp0' (mulModN p (divModN p (addModN p (sqModN p m1 * 3 % p) A) (n1 * 2 % p)) (subModN p m1 (subModN p (subModN p (sqModN p (divModN p (addModN p (sqModN p m1 * 3 % p) A) (n1 * 2 % p))) m1) m1))) n1) hp3]
  rw [if_pos hcond]
  rfl

/-! ### Scalar multiplication as a fold of addition (claim C8) -/

theorem RRes.bind_assoc {α β γ : Type} {x : RRes α} {f : α → RRes β}
    {g : β → RRes γ} :
    (x.bind f).bind g = x.bind fun a => (f a).bind g := by
  cases x <;> rfl

theorem RRes.bind_pure {α : Type} {x : RRes α} : x.bind .ok = x := by
  cases x <;> rfl

theorem Point.scalarLoop_shift (p : Point) :
    ∀ n q, Point.scalarLoop p (n + 1) q =
      (Point.scalarLoop p n q).bind fun r => RRes.unwrap (Point.add r p) := by
  intro n
  induction n with
  | zero =>
    intro q
    show (RRes.unwrap (Point.add q p)).bind (Point.scalarLoop p 0) = _
    simp only [Point.scalarLoop, RRes.bind_ok]
    exact RRes.bind_pure.symm ▸ RRes.bind_pure
  | succ n ih =>
    intro q
    show (RRes.unwrap (Point.add q p)).bind (Point.scalarLoop p (n + 1)) = _
    calc (RRes.unwrap (Point.add q p)).bind (Point.scalarLoop p (n + 1))
        = (RRes.unwrap (Point.add q p)).bind fun r =>
            (Point.scalarLoop p n r).bind fun r2 =>
              RRes.unwrap (Point.add r2 p) := by
          congr 1
          funext r
          exact ih r
      _ = ((RRes.unwrap (Point.add q p)).bind (Point.scalarLoop p n)).bind
            fun r2 => RRes.unwrap (Point.add r2 p) := RRes.bind_assoc.symm
      _ = (Point.scalarLoop p (n + 1) q).bind fun r =>
            RRes.unwrap (Point.add r p) := rfl

theorem Point.scalar_mul_eq_foldAdd (p : Point) :
    ∀ k, 1 ≤ k → Point.scalar_mul p k = Point.foldAdd p k := by
  have hloop : ∀ n, Point.scalarLoop p n p = Point.foldAdd p (n + 1) := by
    intro n
    induction n with
    | zero => rfl
    | succ n ih =>
      rw [Point.scalarLoop_shift, ih]
      rfl
  intro k hk
  match k, hk with
  | 1, _ => rfl
  | (n + 2), _ =>
    rw [Point.scalar_mul, if_neg (by omega), if_pos (by omega),
      (by omega : n + 2 - 1 = n + 1), hloop]

/-! ### Claim theorems -/

/-- Claim C1, counterexample: adding the point at infinity to the
on-curve point (1, 6) of the curve y² = x³ over the 7-element field
does not return the point itself — `Point::add` returns the reflected
point (1, 1) (ch2.rs lines 116-128 flip `y`), exactly as the
repository's own `test_point_addition_identity` expects. -/
theorem C1_counterexample :
    Point.add ⟨⟨0, 7⟩, ⟨0, 7⟩, none, none⟩
        ⟨⟨0, 7⟩, ⟨0, 7⟩, some ⟨1, 7⟩, some ⟨6, 7⟩⟩ ≠
      .ok ⟨⟨0, 7⟩, ⟨0, 7⟩, some ⟨1, 7⟩, some ⟨6, 7⟩⟩ ∧
    Point.add ⟨⟨0, 7⟩, ⟨0, 7⟩, none, none⟩
        ⟨⟨0, 7⟩, ⟨0, 7⟩, some ⟨1, 7⟩, some ⟨6, 7⟩⟩ =
      .ok ⟨⟨0, 7⟩, ⟨0, 7⟩, some ⟨1, 7⟩, some ⟨1, 7⟩⟩ := by
  decide

/-- Claim C1, amended: adding the point at infinity of the curve to a
valid on-curve point (x, y) returns the reflection (x, prime − y)
of that point across the x-axis, on both sides — not the point
itself — and panics when y = 0 (the reflected coordinate prime − 0 is
out of range and the internal `FieldElement::new(..).unwrap()`
aborts); infinity plus infinity is infinity. -/
theorem C1_amended {A B mx my p : Nat} (hA : A < p) (hB : B < p)
    (hx : mx < p) (hy : my < p) (hp3 : p ^ 3 < 4294967296)
    (hcurve : my ^ 2 % p = (mx ^ 3 + A * mx + B) % p) :
    (Point.add ⟨⟨A, p⟩, ⟨B, p⟩, none, none⟩
        ⟨⟨A, p⟩, ⟨B, p⟩, some ⟨mx, p⟩, some ⟨my, p⟩⟩ =
      if my = 0 then .panic
      else .ok ⟨⟨A, p⟩, ⟨B, p⟩, some ⟨mx, p⟩, some ⟨p - my, p⟩⟩) ∧
    (Point.add ⟨⟨A, p⟩, ⟨B, p⟩, some ⟨mx, p⟩, some ⟨my, p⟩⟩
        ⟨⟨A, p⟩, ⟨B, p⟩, none, none⟩ =
      if my = 0 then .panic
      else .ok ⟨⟨A, p⟩, ⟨B, p⟩, some ⟨mx, p⟩, some ⟨p - my, p⟩⟩) ∧
    Point.add ⟨⟨A, p⟩, ⟨B, p⟩, none, none⟩ ⟨⟨A, p⟩, ⟨B, p⟩, none, none⟩ =
      .ok ⟨⟨A, p⟩, ⟨B, p⟩, none, none⟩ :=
  ⟨Point.add_inf_left hA hB hx hy hp3 hcurve,
   Point.add_inf_right hA hB hx hy hp3 hcurve,
   Point.add_inf_inf _ _⟩

/-- Claim C1, witness of the amended theorem at the point (1, 6) on
y² = x³ over the 7-element field. -/
theorem C1_amended_witness :
    ((6 : Nat) ^ 2 % 7 = (1 ^ 3 + 0 * 1 + 0) % 7) ∧
    ((Point.add ⟨⟨0, 7⟩, ⟨0, 7⟩, none, none⟩
        ⟨⟨0, 7⟩, ⟨0, 7⟩, some ⟨1, 7⟩, some ⟨6, 7⟩⟩ =
      if (6 : Nat) = 0 then .panic
      else .ok ⟨⟨0, 7⟩, ⟨0, 7⟩, some ⟨1, 7⟩, some ⟨7 - 6, 7⟩⟩) ∧
    (Point.add ⟨⟨0, 7⟩, ⟨0, 7⟩, some ⟨1, 7⟩, some ⟨6, 7⟩⟩
        ⟨⟨0, 7⟩, ⟨0, 7⟩, none, none⟩ =
      if (6 : Nat) = 0 then .panic
      else .ok ⟨⟨0, 7⟩, ⟨0, 7⟩, some ⟨1, 7⟩, some ⟨7 - 6, 7⟩⟩) ∧
    Point.add ⟨⟨0, 7⟩, ⟨0, 7⟩, none, none⟩ ⟨⟨0, 7⟩, ⟨0, 7⟩, none, none⟩ =
      .ok ⟨⟨0, 7⟩, ⟨0, 7⟩, none, none⟩) :=
  ⟨by decide, C1_amended (by decide) (by decide) (by decide) (by decide)
    (by decide) (by decide)⟩

/-- Claim C2 (code bug): `FieldElement::pow` does not compute modular
exponentiation for every non-negative exponent.  At exponent 0 the
loop bound `exponent - 1` underflows and the program aborts instead of
returning the multiplicative identity, and at exponent 21 on the base
3 the `u32` power `3^21` overflows and aborts, where repeated modular
multiplication would return 6. -/
theorem C2_pow_bug :
    FieldElement.pow ⟨3, 7⟩ 0 = .panic ∧
    FieldElement.pow ⟨3, 7⟩ 21 = .panic := by
  decide

/-- Claim C3 (code bug): the core does panic on some inputs.  Adding
the point at infinity to the on-curve point (0, 0) of y² = x³ over
the 7-element field reaches `FieldElement::new(7, 7).unwrap()` inside
`Point::add`, which aborts instead of returning an error value. -/
theorem C3_add_panics :
    Point.add ⟨⟨0, 7⟩, ⟨0, 7⟩, none, none⟩
        ⟨⟨0, 7⟩, ⟨0, 7⟩, some ⟨0, 7⟩, some ⟨0, 7⟩⟩ = .panic := by
  decide

/-- Claim C4, counterexample: with both coordinates present and all
primes equal, `Point::new` can panic before deciding `NotOnCurve`:
over the prime 2147483647 with y = 65536 the very first squaring
overflows `u32` and the program aborts, returning neither
`NotOnCurve` nor success. -/
theorem C4_counterexample :
    Point.new ⟨0, 2147483647⟩ ⟨0, 2147483647⟩ (some ⟨0, 2147483647⟩)
        (some ⟨65536, 2147483647⟩) = .panic ∧
    Point.new ⟨0, 2147483647⟩ ⟨0, 2147483647⟩ (some ⟨0, 2147483647⟩)
        (some ⟨65536, 2147483647⟩) ≠ .err .NotOnCurve := by
  decide

/-- Claim C4, amended: `Point::new` fails with `InvalidInfinity` when
exactly one coordinate is supplied, succeeds as the point at infinity
with both absent, fails with `FieldMismatch` when the four primes do
not agree, and — provided the intermediate `u32` arithmetic does not
overflow (prime³ < 2³²) — fails with `NotOnCurve` exactly when
y² ≢ x³ + a·x + b and succeeds otherwise. -/
theorem C4_amended :
    (∀ a b x : FieldElement,
      Point.new a b (some x) none = .err .InvalidInfinity) ∧
    (∀ a b y : FieldElement,
      Point.new a b none (some y) = .err .InvalidInfinity) ∧
    (∀ a b : FieldElement, Point.new a b none none = .ok ⟨a, b, none, none⟩) ∧
    (∀ a b x y : FieldElement,
      (a.prime ≠ b.prime ∨ b.prime ≠ x.prime ∨ x.prime ≠ y.prime) →
      Point.new a b (some x) (some y) = .err .FieldMismatch) ∧
    (∀ A B mx my p : Nat, A < p → B < p → mx < p → my < p →
      p ^ 3 < 4294967296 →
      Point.new ⟨A, p⟩ ⟨B, p⟩ (some ⟨mx, p⟩) (some ⟨my, p⟩) =
        if my ^ 2 % p = (mx ^ 3 + A * mx + B) % p then
          .ok ⟨⟨A, p⟩, ⟨B, p⟩, some ⟨mx, p⟩, some ⟨my, p⟩⟩
        else .err .NotOnCurve) :=
  ⟨Point.new_left_only, Point.new_right_only, Point.new_inf,
   fun _ _ _ _ h => Point.new_mismatch h,
   fun _ _ _ _ _ hA hB hx hy hp3 => Point.new_eval hA hB hx hy hp3⟩

/-- Claim C4, witness of the amended theorem: creation of the on-curve
point (0, 0) and rejection of the off-curve point (0, 1) on y² = x³
over the 7-element field. -/
theorem C4_amended_witness :
    ((0 : Nat) < 7 ∧
      Point.new ⟨0, 7⟩ ⟨0, 7⟩ (some ⟨0, 7⟩) (some ⟨0, 7⟩) =
        if (0 : Nat) ^ 2 % 7 = (0 ^ 3 + 0 * 0 + 0) % 7 then
          .ok ⟨⟨0, 7⟩, ⟨0, 7⟩, some ⟨0, 7⟩, some ⟨0, 7⟩⟩
        else .err .NotOnCurve) ∧
    Point.new ⟨0, 7⟩ ⟨0, 7⟩ (some ⟨0, 7⟩) (some ⟨1, 7⟩) =
      (if (1 : Nat) ^ 2 % 7 = (0 ^ 3 + 0 * 0 + 0) % 7 then
        .ok ⟨⟨0, 7⟩, ⟨0, 7⟩, some ⟨0, 7⟩, some ⟨1, 7⟩⟩
      else .err .NotOnCurve) :=
  ⟨⟨by decide, C4_amended.2.2.2.2 0 0 0 0 7 (by decide) (by decide)
    (by decide) (by decide) (by decide)⟩,
   C4_amended.2.2.2.2 0 0 0 1 7 (by decide) (by decide) (by decide)
    (by decide) (by decide)⟩

/-- Claim C5: `FieldElement::div` fails with `FieldMismatch` when the
primes differ, fails with `DivisionByZero` when the divisor's value is
zero, and otherwise is exactly multiplication of the dividend by the
Fermat inverse `power(b, prime - 2)` — including agreement on every
panic of that composite computation. -/
theorem C5_div_fermat (a b : FieldElement) (hb : b.num < b.prime) :
    FieldElement.div a b =
      if a.prime ≠ b.prime then .err .FieldMismatch
      else if b.num = 0 then .err .DivisionByZero
      else (FieldElement.pow b (a.prime - 2)).bind fun inv =>
        FieldElement.mul a inv := by
  by_cases h1 : a.prime = b.prime
  · by_cases h2 : b.num = 0
    · simp [FieldElement.div, h1, h2]
    · have h3 : 2 ≤ b.prime := by omega
      simp [FieldElement.div, h1, h2, checkedSub_ok h3]
  · simp [FieldElement.div, h1]

/-- Claim C5, witness at 3/5 in the 7-element field. -/
theorem C5_witness :
    (5 : Nat) < 7 ∧
    FieldElement.div ⟨3, 7⟩ ⟨5, 7⟩ =
      (if (7 : Nat) ≠ 7 then .err .FieldMismatch
      else if (5 : Nat) = 0 then .err .DivisionByZero
      else (FieldElement.pow ⟨5, 7⟩ (7 - 2)).bind fun inv =>
        FieldElement.mul ⟨3, 7⟩ inv) :=
  ⟨by decide, C5_div_fermat ⟨3, 7⟩ ⟨5, 7⟩ (by decide)⟩

/-- Claim C6, counterexample: `FieldElement::mul` computes the product
in single-width `u32` arithmetic, so over the prime 2147483647 the
product 65536 · 65536 = 2³² overflows and the program aborts instead
of returning the mathematically correct residue 2. -/
theorem C6_counterexample :
    FieldElement.mul ⟨65536, 2147483647⟩ ⟨65536, 2147483647⟩ = .panic ∧
    FieldElement.mul ⟨65536, 2147483647⟩ ⟨65536, 2147483647⟩ ≠
      .ok ⟨2, 2147483647⟩ := by
  decide

/-- Claim C6, amended: on same-prime operands `FieldElement::mul`
returns the exact product reduced modulo the prime, a value in
[0, prime), whenever the `u32` product does not overflow; when it
overflows the program aborts; and differing primes fail with
`FieldMismatch`. -/
theorem C6_amended (m n p q : Nat) (hm : m < p) (hn : n < q) :
    (p ≠ q → FieldElement.mul ⟨m, p⟩ ⟨n, q⟩ = .err .FieldMismatch) ∧
    (p = q → m * n < 4294967296 →
      FieldElement.mul ⟨m, p⟩ ⟨n, q⟩ = .ok ⟨m * n % p, p⟩ ∧ m * n % p < p) ∧
    (p = q → 4294967296 ≤ m * n → FieldElement.mul ⟨m, p⟩ ⟨n, q⟩ = .panic) := by
  refine ⟨fun hne => FieldElement.mul_mismatch (by simpa using hne), ?_, ?_⟩
  · intro hpq hb
    subst hpq
    exact ⟨FieldElement.mul_ok (by omega) hb, Nat.mod_lt _ (by omega)⟩
  · intro hpq hb
    subst hpq
    have hcm : checkedMul m n = .panic := by
      rw [checkedMul, if_neg (by omega)]
    simp [FieldElement.mul, hcm, RRes.bind]

/-- Claim C6, witness at 3 · 5 in the 7-element field. -/
theorem C6_amended_witness :
    (3 : Nat) < 7 ∧
    FieldElement.mul ⟨3, 7⟩ ⟨5, 7⟩ = .ok ⟨3 * 5 % 7, 7⟩ ∧ 3 * 5 % 7 < 7 :=
  ⟨by decide, (C6_amended 3 5 7 7 (by decide) (by decide)).2.1 rfl (by decide)⟩

/-- Claim C7, counterexample: over the 2-element field the on-curve
point (0, 1) of y² = x³ + 1 satisfies x₁ = x₂ and y₁ + y₂ ≡ 0, yet
`add(p, p)` does not return infinity: the doubling slope's denominator
2·y ≡ 0 makes the internal division panic with a division-by-zero
unwrap. -/
theorem C7_counterexample :
    Point.add ⟨⟨0, 2⟩, ⟨1, 2⟩, some ⟨0, 2⟩, some ⟨1, 2⟩⟩
        ⟨⟨0, 2⟩, ⟨1, 2⟩, some ⟨0, 2⟩, some ⟨1, 2⟩⟩ = .panic ∧
    Point.add ⟨⟨0, 2⟩, ⟨1, 2⟩, some ⟨0, 2⟩, some ⟨1, 2⟩⟩
        ⟨⟨0, 2⟩, ⟨1, 2⟩, some ⟨0, 2⟩, some ⟨1, 2⟩⟩ ≠
      .ok ⟨⟨0, 2⟩, ⟨1, 2⟩, none, none⟩ := by
  decide

/-- Claim C7, amended: over an odd prime, adding two valid on-curve
points of one curve with equal `x` coordinates and y₁ + y₂ ≡ 0
(mod prime) — including the doubling sub-case y = 0 — returns the
point at infinity. -/
theorem C7_amended {A B m n1 n2 p : Nat} (hA : A < p) (hB : B < p)
    (hm : m < p) (hn1 : n1 < p) (hn2 : n2 < p)
    (hc1 : n1 ^ 2 % p = (m ^ 3 + A * m + B) % p)
    (hc2 : n2 ^ 2 % p = (m ^ 3 + A * m + B) % p)
    (hodd : p % 2 = 1) (hsum : (n1 + n2) % p = 0)
    (h2p : p + p < 4294967296) :
    Point.add ⟨⟨A, p⟩, ⟨B, p⟩, some ⟨m, p⟩, some ⟨n1, p⟩⟩
        ⟨⟨A, p⟩, ⟨B, p⟩, some ⟨m, p⟩, some ⟨n2, p⟩⟩ =
      .ok ⟨⟨A, p⟩, ⟨B, p⟩, none, none⟩ :=
  Point.add_vertical hn1 hn2 hodd hsum h2p

/-- Claim C7, witness at (1, 6) + (1, 1) on y² = x³ over the
7-element field. -/
theorem C7_amended_witness :
    ((6 : Nat) + 1) % 7 = 0 ∧
    Point.add ⟨⟨0, 7⟩, ⟨0, 7⟩, some ⟨1, 7⟩, some ⟨6, 7⟩⟩
        ⟨⟨0, 7⟩, ⟨0, 7⟩, some ⟨1, 7⟩, some ⟨1, 7⟩⟩ =
      .ok ⟨⟨0, 7⟩, ⟨0, 7⟩, none, none⟩ :=
  ⟨by decide, C7_amended (by decide) (by decide) (by decide) (by decide)
    (by decide) (by decide) (by decide) (by decide) (by decide) (by decide)⟩

/-- Claim C8: `Point::scalar_mul` maps 0 to the point at infinity of
the point's curve, maps 1 to the point unchanged, and for every k ≥ 1
equals the fold of the group addition over k copies of the point. -/
theorem C8_scalar_mul (p : Point) :
    Point.scalar_mul p 0 = .ok ⟨p.a, p.b, none, none⟩ ∧
    Point.scalar_mul p 1 = .ok p ∧
    ∀ k, 1 ≤ k → Point.scalar_mul p k = Point.foldAdd p k := by
  refine ⟨?_, ?_, Point.scalar_mul_eq_foldAdd p⟩
  · simp [Point.scalar_mul, Point.new]
  · rfl

/-- Claim C8, witness: fivefold scalar multiplication of (1, 6) on
y² = x³ over the 7-element field agrees with the fold of addition. -/
theorem C8_witness :
    (1 : Nat) ≤ 5 ∧
    Point.scalar_mul ⟨⟨0, 7⟩, ⟨0, 7⟩, some ⟨1, 7⟩, some ⟨6, 7⟩⟩ 5 =
      Point.foldAdd ⟨⟨0, 7⟩, ⟨0, 7⟩, some ⟨1, 7⟩, some ⟨6, 7⟩⟩ 5 :=
  ⟨by decide, (C8_scalar_mul _).2.2 5 (by decide)⟩

/-- Claim C9: every point produced by creation, addition or scalar
multiplication satisfies the on-curve invariant (concrete coordinates
share one prime and satisfy y² = x³ + a·x + b in that field), and in
the two slope cases of `Point::add` — over an odd prime, with
`u32`-sized intermediates — the computed (x₃, y₃) lies on the curve,
so the whole addition succeeds and its internal re-validation never
fails. -/
theorem C9_invariant :
    (∀ (a b : FieldElement) (x y : Option FieldElement) (q : Point),
      Point.new a b x y = .ok q → onCurveInv q) ∧
    (∀ p1 p2 q : Point, Point.add p1 p2 = .ok q → onCurveInv q) ∧
    (∀ (p : Point) (k : Nat) (q : Point), onCurveInv p →
      Point.scalar_mul p k = .ok q → onCurveInv q) ∧
    (∀ A B m1 n1 m2 n2 p : Nat, Nat.Prime p → 2 < p →
      p ^ 3 < 4294967296 → A < p → B < p → m1 < p → n1 < p → m2 < p →
      n2 < p → n1 ^ 2 % p = (m1 ^ 3 + A * m1 + B) % p →
      n2 ^ 2 % p = (m2 ^ 3 + A * m2 + B) % p →
      (m1 ≠ m2 → (subModN p m2 m1) ^ (p - 2) < 4294967296 →
        ∃ q : Point,
          Point.add ⟨⟨A, p⟩, ⟨B, p⟩, some ⟨m1, p⟩, some ⟨n1, p⟩⟩
            ⟨⟨A, p⟩, ⟨B, p⟩, some ⟨m2, p⟩, some ⟨n2, p⟩⟩ = .ok q ∧
          q.x ≠ none) ∧
      (n1 = n2 → m1 = m2 → n1 ≠ 0 →
        (n1 * 2 % p) ^ (p - 2) < 4294967296 →
        ∃ q : Point,
          Point.add ⟨⟨A, p⟩, ⟨B, p⟩, some ⟨m1, p⟩, some ⟨n1, p⟩⟩
            ⟨⟨A, p⟩, ⟨B, p⟩, some ⟨m2, p⟩, some ⟨n2, p⟩⟩ = .ok q ∧
          q.x ≠ none)) := by
  refine ⟨fun a b x y q h => Point.new_inv h,
    fun p1 p2 q h => Point.add_inv h,
    fun p k q hp h => Point.scalar_mul_inv hp h, ?_⟩
  intro A B m1 n1 m2 n2 p hp hp2 hp3 hA hB hm1 hn1 hm2 hn2 hc1 hc2
  constructor
  · intro hmm hpw
    exact ⟨_, Point.addDistinct_complete hp hp2 hp3 hA hB hm1 hn1 hm2 hn2
      hc1 hc2 hmm hpw, by simp⟩
  · intro hnn hmm hn10 hpw
    subst hnn
    subst hmm
    exact ⟨_, Point.addDouble_complete hp hp2 hp3 hA hB hm1 hn1 hc1
      hn10 hpw, by simp⟩

/-- Claim C9, witness: the distinct-points slope case completes
successfully (and hence re-validates successfully) at
(1, 6) + (2, 1) on y² = x³ over the 7-element field. -/
theorem C9_witness :
    (1 : Nat) ≠ 2 ∧
    ∃ q : Point,
      Point.add ⟨⟨0, 7⟩, ⟨0, 7⟩, some ⟨1, 7⟩, some ⟨6, 7⟩⟩
        ⟨⟨0, 7⟩, ⟨0, 7⟩, some ⟨2, 7⟩, some ⟨1, 7⟩⟩ = .ok q ∧ q.x ≠ none :=
  ⟨by decide,
   (C9_invariant.2.2.2 0 0 1 6 2 1 7 (by norm_num) (by decide) (by decide)
     (by decide) (by decide) (by decide) (by decide) (by decide) (by decide)
     (by decide) (by decide)).1 (by decide) (by decide)⟩

/-- Claim C10: `FieldElement::sub` on same-prime valid operands
returns a.num − b.num when a.num ≥ b.num and prime − (b.num − a.num)
when a.num < b.num, always a value in [0, prime); on differing primes
it fails with `FieldMismatch`. -/
theorem C10_sub (m n p q : Nat) (hm : m < p) (hn : n < q) :
    (p ≠ q → FieldElement.sub ⟨m, p⟩ ⟨n, q⟩ = .err .FieldMismatch) ∧
    (p = q →
      FieldElement.sub ⟨m, p⟩ ⟨n, q⟩ =
        .ok ⟨if n ≤ m then m - n else p - (n - m), p⟩ ∧
      (if n ≤ m then m - n else p - (n - m)) < p) := by
  constructor
  · intro hne
    exact FieldElement.sub_mismatch (by simpa using hne)
  · intro hpq
    subst hpq
    have hval : (m + p - n) % p = if n ≤ m then m - n else p - (n - m) := by
      by_cases hcmp : n ≤ m
      · rw [if_pos hcmp, (by omega : m + p - n = (m - n) + p),
          Nat.add_mod_right]
        exact Nat.mod_eq_of_lt (by omega)
      · rw [if_neg hcmp, Nat.mod_eq_of_lt (by omega)]
        omega
    refine ⟨?_, ?_⟩
    · rw [FieldElement.sub_ok hm hn, hval]
    · rw [← hval]
      exact Nat.mod_lt _ (by omega)

/-- Claim C10, witness at 3 − 5 in the 7-element field (the wrapped
difference is 5, matching the repository's subtraction test). -/
theorem C10_witness :
    (3 : Nat) < 7 ∧
    FieldElement.sub ⟨3, 7⟩ ⟨5, 7⟩ =
      .ok ⟨if (5 : Nat) ≤ 3 then 3 - 5 else 7 - (5 - 3), 7⟩ ∧
    (if (5 : Nat) ≤ 3 then 3 - 5 else 7 - (5 - 3)) < 7 :=
  ⟨by decide, (C10_sub 3 5 7 7 (by decide) (by decide)).2 rfl⟩
